import Mathlib

/-!
# Ping Pong video hardware (`src/mame/konami/pingpong_v.cpp`)

A shallow embedding of the video code of the Ping Pong driver: palette PROM
decoding (`pingpong_palette`), the RAM write handlers (`pingpong_videoram_w`,
`pingpong_colorram_w`), tile attribute decoding (`get_bg_tile_info`), sprite
drawing (`draw_sprites`) and the frame update (`screen_update_pingpong`),
followed by theorems about them.

Conventions of the embedding

* A `uint8_t` is a `Fin 256`; every C++ `int` computed from bytes is carried as
  a `Nat` or an `Int`, with the conversions of the source written out.
* The host framework (palette device, tilemap, graphics decoder) is not part
  of the source file.  Its objects appear only as the store written by the two
  palette setters and as the record of arguments of each call made into it.
-/

namespace Pingpong

/-! ## Machine integers and framework helpers -/

/-- An 8-bit unsigned machine byte. -/
abbrev uint8_t := Fin 256

/-- Conversion of an integer value to `uint8_t` keeps the low eight bits. -/
def to_uint8 (x : Nat) : Nat := x % 256

/-- The framework helper `BIT(x, n)`: bit `n` of `x`, as 0 or 1. -/
def BIT (x n : Nat) : Nat := (x >>> n) &&& 1

/-- The framework helper `bitswap<8>(val, b7, ..., b0)`: bit `k` of the result
is bit `bk` of `val`. -/
def bitswap8 (val b7 b6 b5 b4 b3 b2 b1 b0 : Nat) : Nat :=
  (BIT val b7 <<< 7) ||| (BIT val b6 <<< 6) ||| (BIT val b5 <<< 5) ||| (BIT val b4 <<< 4) |||
  (BIT val b3 <<< 3) ||| (BIT val b2 <<< 2) ||| (BIT val b1 <<< 1) ||| (BIT val b0 <<< 0)

/-- A colour `rgb_t`: three 8-bit components. -/
structure rgb_t where
  r : Nat
  g : Nat
  b : Nat
deriving DecidableEq, Repr

/-- The constructor `rgb_t(r, g, b)`: its parameters are `uint8_t`, so each
argument is converted to eight bits. -/
def rgb_t.make (r g b : Nat) : rgb_t := ⟨to_uint8 r, to_uint8 g, to_uint8 b⟩

/-- The palette device, seen through its two setters: the table of indirect
colours and the table that sends each pen to an indirect colour index.  An
entry nobody has set is `none`. -/
structure palette_device where
  m_indirect_colors : Nat → Option rgb_t
  m_indirect_pens : Nat → Option Nat

/-- A palette device on which no setter has been called. -/
def palette_device.fresh : palette_device := ⟨fun _ => none, fun _ => none⟩

/-- The setter `palette.set_indirect_color(index, rgb)`. -/
def palette_device.set_indirect_color (p : palette_device) (index : Nat) (rgb : rgb_t) :
    palette_device :=
  { p with m_indirect_colors := fun k => if k = index then some rgb else p.m_indirect_colors k }

/-- The setter `palette.set_pen_indirect(pen, index)`. -/
def palette_device.set_pen_indirect (p : palette_device) (pen index : Nat) : palette_device :=
  { p with m_indirect_pens := fun k => if k = pen then some index else p.m_indirect_pens k }

/-- The loop `for (int i = lo; i < lo + n; i++) body`, threading the state. -/
def for_loop {σ : Type} (body : Nat → σ → σ) : Nat → Nat → σ → σ
  | _, 0, s => s
  | i, n + 1, s => for_loop body (i + 1) n (body i s)

/-! ## `pingpong_palette` -/

/-- The three `int` components `r`, `g`, `b` that the first loop of
`pingpong_palette` computes from one palette PROM byte (source lines 42-60). -/
def palette_components (v : Nat) : Nat × Nat × Nat :=
  -- red component
  let bit0 := BIT v 0
  let bit1 := BIT v 1
  let bit2 := BIT v 2
  let r := 0x21 * bit0 + 0x47 * bit1 + 0x97 * bit2
  -- green component
  let bit0 := BIT v 3
  let bit1 := BIT v 4
  let bit2 := BIT v 5
  let g := 0x21 * bit0 + 0x47 * bit1 + 0x97 * bit2
  -- blue component
  let bit0 := 0
  let bit1 := BIT v 6
  let bit2 := BIT v 7
  let b := 0x21 * bit0 + 0x47 * bit1 + 0x97 * bit2
  (r, g, b)

/-- Body of the first loop: `palette.set_indirect_color(i, rgb_t(r, g, b))`. -/
def palette_body (color_prom : Nat → uint8_t) (i : Nat) (palette : palette_device) :
    palette_device :=
  let c := palette_components (color_prom i).val
  palette.set_indirect_color i (rgb_t.make c.1 c.2.1 c.2.2)

/-- Body of the character loop; `color_prom` already points 0x20 bytes into
the region. -/
def characters_body (color_prom : Nat → uint8_t) (i : Nat) (palette : palette_device) :
    palette_device :=
  let ctabentry := to_uint8 (((color_prom i).val &&& 0x0f) ||| 0x10)
  palette.set_pen_indirect i ctabentry

/-- Body of the sprite loop; `color_prom` already points 0x20 bytes into the
region. -/
def sprites_body (color_prom : Nat → uint8_t) (i : Nat) (palette : palette_device) :
    palette_device :=
  let ctabentry := to_uint8 (bitswap8 (color_prom i).val 7 6 5 4 0 1 2 3)
  palette.set_pen_indirect i ctabentry

/-- The palette initialiser `pingpong_state::pingpong_palette`.  The argument
`proms` is the content of the memory region "proms", indexed by byte offset. -/
def pingpong_palette (proms : Nat → uint8_t) (palette : palette_device) : palette_device :=
  let color_prom := proms
  -- create a lookup table for the palette
  let palette := for_loop (palette_body color_prom) 0 0x20 palette
  -- color_prom now points to the beginning of the lookup table
  let color_prom := fun k => proms (0x20 + k)
  -- characters
  let palette := for_loop (characters_body color_prom) 0 0x100 palette
  -- sprites
  let palette := for_loop (sprites_body color_prom) 0x100 (0x200 - 0x100) palette
  palette

/-! ## Machine state and the RAM write handlers -/

/-- The members of `pingpong_state` that the video code uses.  Video RAM and
colour RAM are indexed by tile offset; sprite RAM is a block of bytes whose
size `m_spriteram.bytes()` is the length of the list. -/
structure pingpong_state where
  m_videoram : Nat → uint8_t
  m_colorram : Nat → uint8_t
  m_spriteram : List uint8_t

/-- A call made into the background tilemap by a write handler. -/
inductive tilemap_call where
  | mark_tile_dirty (offset : Nat)
deriving DecidableEq, Repr

/-- The write handler `pingpong_state::pingpong_videoram_w`. -/
def pingpong_videoram_w (s : pingpong_state) (offset : Nat) (data : uint8_t) :
    pingpong_state × List tilemap_call :=
  ({ s with m_videoram := fun k => if k = offset then data else s.m_videoram k },
   [tilemap_call.mark_tile_dirty offset])

/-- The write handler `pingpong_state::pingpong_colorram_w`. -/
def pingpong_colorram_w (s : pingpong_state) (offset : Nat) (data : uint8_t) :
    pingpong_state × List tilemap_call :=
  ({ s with m_colorram := fun k => if k = offset then data else s.m_colorram k },
   [tilemap_call.mark_tile_dirty offset])

/-! ## `get_bg_tile_info` -/

/-- The arguments of `tileinfo.set(gfxnum, rawcode, rawcolor, flags)`, which is
how a tile-info callback reports a tile. -/
structure tile_data where
  gfxnum : Nat
  code : Nat
  color : Nat
  flags : Nat
deriving DecidableEq, Repr

/-- The tile-info callback `pingpong_state::get_bg_tile_info`.  The flag
constants `TILE_FLIPX` and `TILE_FLIPY` are declared by the framework, outside
the source file, and are parameters here. -/
def get_bg_tile_info (TILE_FLIPX TILE_FLIPY : Nat) (s : pingpong_state) (tile_index : Nat) :
    tile_data :=
  let attr := (s.m_colorram tile_index).val
  let code := (s.m_videoram tile_index).val + ((attr &&& 0x20) <<< 3)
  let color := attr &&& 0x1f
  let flags := (if attr &&& 0x40 ≠ 0 then TILE_FLIPX else 0) |||
    (if attr &&& 0x80 ≠ 0 then TILE_FLIPY else 0)
  ⟨0, code, color, flags⟩

/-! ## The background tilemap, as the write handlers use it -/

/-- Modelled from the spec: the background tilemap `m_bg_tilemap` is an object
of the framework, whose code is not in the source file.  For each tile it holds
a dirty mark and the tile info it cached when it last asked the callback. -/
structure tilemap_t where
  dirty : Nat → Bool
  cache : Nat → tile_data

/-- Modelled from the spec: the framework function
`tilemap_t::mark_tile_dirty(offset)`, which is not in the source file, marks the
tile `offset` dirty and changes nothing else. -/
def tilemap_t.mark_tile_dirty (tm : tilemap_t) (offset : Nat) : tilemap_t :=
  { tm with dirty := fun k => if k = offset then true else tm.dirty k }

/-- The tilemap after the calls a write handler has made into it, in order. -/
def tilemap_t.run (tm : tilemap_t) : List tilemap_call → tilemap_t
  | [] => tm
  | tilemap_call.mark_tile_dirty offset :: rest => (tm.mark_tile_dirty offset).run rest

/-! ## `draw_sprites` -/

/-- A clip rectangle; the bounds are inclusive. -/
structure rectangle where
  min_x : Int
  max_x : Int
  min_y : Int
  max_y : Int
deriving DecidableEq, Repr

/-- The constructor `rectangle(minx, maxx, miny, maxy)`. -/
def rectangle.make (minx maxx miny maxy : Int) : rectangle := ⟨minx, maxx, miny, maxy⟩

/-- Whether the pixel `(x, y)` lies inside the rectangle. -/
def rectangle.contains (rect : rectangle) (x y : Int) : Prop :=
  rect.min_x ≤ x ∧ x ≤ rect.max_x ∧ rect.min_y ≤ y ∧ y ≤ rect.max_y

instance (rect : rectangle) (x y : Int) : Decidable (rect.contains x y) := by
  unfold rectangle.contains; infer_instance

/-- The arguments of `m_palette->transpen_mask(gfx, color, transcolor)`; the
graphics element is named by its index in the decoder. -/
structure transpen_mask_args where
  gfx : Nat
  color : Nat
  transcolor : Nat
deriving DecidableEq, Repr

/-- One call `m_gfxdecode->gfx(gfx)->transmask(bitmap, cliprect, code, color,
flipx, flipy, destx, desty, trans_mask)`.  The flip arguments are C++ `int`s
used as truth values: a flip is requested when the value is not zero. -/
structure transmask_call where
  gfx : Nat
  cliprect : rectangle
  code : Nat
  color : Nat
  flipx : Nat
  flipy : Nat
  destx : Int
  desty : Int
  trans_mask : transpen_mask_args
deriving DecidableEq, Repr

/-- Subtraction of two `size_t` values: unsigned, modulo `2 ^ 64`. -/
def size_t_sub (a b : Nat) : Nat := (a % 2 ^ 64 + 2 ^ 64 - b % 2 ^ 64) % 2 ^ 64

/-- Conversion of an unsigned value to the 32-bit signed `int`: the low 32 bits
in two's complement.  (An unsigned width other than 64 bits, but at least 32,
gives the same `int` in `draw_sprites`.) -/
def int_of_size_t (x : Nat) : Int :=
  if x % 2 ^ 32 < 2 ^ 31 then ((x % 2 ^ 32 : Nat) : Int) else ((x % 2 ^ 32 : Nat) : Int) - 2 ^ 32

/-- The value of a signed 32-bit `int` expression whose mathematical value is
`x`: the low 32 bits in two's complement.  Overflow of a signed sum is
undefined in the source; the wrapped sums of `draw_sprites` are negative then,
so the read that uses one falls outside sprite RAM. -/
def int_wrap (x : Int) : Int := (x + 2 ^ 31) % 2 ^ 32 - 2 ^ 31

/-- One read `spriteram[index]` through the raw pointer.  The read is defined
only inside the sprite RAM block; outside it the result is `none`. -/
def spriteram_read (spriteram : List uint8_t) (index : Int) : Option Nat :=
  if 0 ≤ index then (spriteram.get? index.toNat).map Fin.val else none

/-- The body of the loop of `draw_sprites` at the offset `offs` (source lines
122-138): the `transmask` call it issues, or `none` when one of its reads falls
outside sprite RAM.  The index sums `offs + k` are 32-bit `int` sums. -/
def draw_sprites_body (spriteram : List uint8_t) (spritevisiblearea : rectangle) (offs : Int) :
    Option transmask_call := do
  let sx ← spriteram_read spriteram (int_wrap (offs + 3))
  let sy := 241 - ((← spriteram_read spriteram (int_wrap (offs + 1))) : Int)
  let flipx := (← spriteram_read spriteram offs) &&& 0x40
  let flipy := (← spriteram_read spriteram offs) &&& 0x80
  let color := (← spriteram_read spriteram offs) &&& 0x1f
  let schar := (← spriteram_read spriteram (int_wrap (offs + 2))) &&& 0x7f
  some { gfx := 1, cliprect := spritevisiblearea, code := schar, color := color,
         flipx := flipx, flipy := flipy, destx := sx, desty := sy,
         trans_mask := ⟨1, color, 0⟩ }

/-- The loop `for (...; offs >= 0; offs -= 4)` of `draw_sprites`, from the
current value of `offs`, as the list of `transmask` calls in the order they are
issued.  The first argument bounds the number of iterations; `none` is
returned when it is exhausted or when a read falls outside sprite RAM. -/
def draw_sprites_loop (spriteram : List uint8_t) (spritevisiblearea : rectangle) :
    Nat → Int → Option (List transmask_call)
  | 0, offs => if offs ≥ 0 then none else some []
  | fuel + 1, offs =>
    if offs ≥ 0 then do
      let call ← draw_sprites_body spriteram spritevisiblearea offs
      let rest ← draw_sprites_loop spriteram spritevisiblearea fuel (int_wrap (offs - 4))
      some (call :: rest)
    else some []

/-- The member function `pingpong_state::draw_sprites`.  The loop starts at
`m_spriteram.bytes() - 4`, computed in `size_t` and converted to `int`; it runs
at most once per four bytes, so the sprite RAM size bounds its iterations. -/
def draw_sprites (s : pingpong_state) (_cliprect : rectangle) : Option (List transmask_call) :=
  let spritevisiblearea := rectangle.make (0 * 8) (32 * 8 - 1) (4 * 8) (29 * 8 - 1)
  let spriteram := s.m_spriteram
  let offs := int_of_size_t (size_t_sub s.m_spriteram.length 4)
  draw_sprites_loop spriteram spritevisiblearea s.m_spriteram.length offs

/-! ## `screen_update_pingpong` -/

/-- A drawing operation on the frame bitmap, in the order issued. -/
inductive draw_op where
  | tilemap_draw (cliprect : rectangle) (flags : Nat) (priority : Nat)
  | transmask (call : transmask_call)
deriving DecidableEq, Repr

/-- The frame update `pingpong_state::screen_update_pingpong`: the machine
state after the call, the drawing operations in the order issued, and the
returned value. -/
def screen_update_pingpong (s : pingpong_state) (cliprect : rectangle) :
    Option (pingpong_state × List draw_op × Nat) := do
  let bg := draw_op.tilemap_draw cliprect 0 0
  let sprites ← draw_sprites s cliprect
  some (s, bg :: sprites.map draw_op.transmask, 0)

/-! ## Vocabulary of the statements -/

/-- Bit `k` of `v`, as 0 or 1, by division: the reading of "bit k" used in the
statements below (the code itself extracts bits with `BIT`). -/
def bit_of (v k : Nat) : Nat := v / 2 ^ k % 2

/-- The tilemap invariant: every tile not marked dirty has cached tile info
equal to `get_bg_tile_info` of the current RAM. -/
def tilemap_valid (TILE_FLIPX TILE_FLIPY : Nat) (s : pingpong_state) (tm : tilemap_t) : Prop :=
  ∀ t : Nat, tm.dirty t = false → tm.cache t = get_bg_tile_info TILE_FLIPX TILE_FLIPY s t

/-! ## Sample inputs -/

/-- A sample PROM region: offset `k` holds `7 * k + 3` modulo 256. -/
def sample_proms : Nat → uint8_t := fun k => Fin.ofNat (7 * k + 3)

/-- A PROM region that is zero except for the byte 0x20 at offset 0x120, the
lookup byte of sprite pen 0x100. -/
def proms_high_bit : Nat → uint8_t := fun k => if k = 0x120 then 0x20 else 0

/-- A PROM region in which every byte is 0xff. -/
def proms_all_set : Nat → uint8_t := fun _ => 0xff

/-- A sample machine state with three sprites. -/
def sample_state : pingpong_state :=
  { m_videoram := fun k => Fin.ofNat (3 * k + 1)
    m_colorram := fun k => Fin.ofNat (37 * k + 0xe5)
    m_spriteram := [0xc7, 250, 0x85, 16, 0x1f, 0, 0xff, 255, 0x40, 100, 0x7f, 0] }

/-- A machine state whose sprite RAM has 6 bytes, not a whole number of
entries. -/
def sample_state_odd : pingpong_state :=
  { m_videoram := fun _ => 0
    m_colorram := fun _ => 0
    m_spriteram := [0x11, 0x22, 0xc7, 250, 0x85, 16] }

/-- A tilemap with no dirty tile whose cache holds the tile info of the sample
state, for the flag constants 1 and 2. -/
def sample_tilemap : tilemap_t :=
  { dirty := fun _ => false
    cache := fun t => get_bg_tile_info 1 2 sample_state t }

/-! ## Lemmas on the palette loops -/

theorem for_loop_set_indirect_color_colors (f : Nat → rgb_t) (n i : Nat) (p : palette_device)
    (k : Nat) :
    (for_loop (fun j q => palette_device.set_indirect_color q j (f j)) i n p).m_indirect_colors k
      = if i ≤ k ∧ k < i + n then some (f k) else p.m_indirect_colors k := by
  induction n generalizing i p with
  | zero =>
    have h : ¬ (i ≤ k ∧ k < i + 0) := by omega
    rw [for_loop, if_neg h]
  | succ n ih =>
    rw [for_loop, ih]
    by_cases h1 : i + 1 ≤ k ∧ k < i + 1 + n
    · have h2 : i ≤ k ∧ k < i + (n + 1) := by omega
      rw [if_pos h1, if_pos h2]
    · rw [if_neg h1]
      by_cases h3 : k = i
      · have h2 : i ≤ k ∧ k < i + (n + 1) := by omega
        rw [if_pos h2]
        simp [palette_device.set_indirect_color, h3]
      · have h2 : ¬ (i ≤ k ∧ k < i + (n + 1)) := by omega
        rw [if_neg h2]
        simp [palette_device.set_indirect_color, h3]

theorem for_loop_set_indirect_color_pens (f : Nat → rgb_t) (n i : Nat) (p : palette_device) :
    (for_loop (fun j q => palette_device.set_indirect_color q j (f j)) i n p).m_indirect_pens
      = p.m_indirect_pens := by
  induction n generalizing i p with
  | zero => rfl
  | succ n ih => rw [for_loop, ih]; rfl

theorem for_loop_set_pen_indirect_pens (f : Nat → Nat) (n i : Nat) (p : palette_device)
    (k : Nat) :
    (for_loop (fun j q => palette_device.set_pen_indirect q j (f j)) i n p).m_indirect_pens k
      = if i ≤ k ∧ k < i + n then some (f k) else p.m_indirect_pens k := by
  induction n generalizing i p with
  | zero =>
    have h : ¬ (i ≤ k ∧ k < i + 0) := by omega
    rw [for_loop, if_neg h]
  | succ n ih =>
    rw [for_loop, ih]
    by_cases h1 : i + 1 ≤ k ∧ k < i + 1 + n
    · have h2 : i ≤ k ∧ k < i + (n + 1) := by omega
      rw [if_pos h1, if_pos h2]
    · rw [if_neg h1]
      by_cases h3 : k = i
      · have h2 : i ≤ k ∧ k < i + (n + 1) := by omega
        rw [if_pos h2]
        simp [palette_device.set_pen_indirect, h3]
      · have h2 : ¬ (i ≤ k ∧ k < i + (n + 1)) := by omega
        rw [if_neg h2]
        simp [palette_device.set_pen_indirect, h3]

theorem for_loop_set_pen_indirect_colors (f : Nat → Nat) (n i : Nat) (p : palette_device) :
    (for_loop (fun j q => palette_device.set_pen_indirect q j (f j)) i n p).m_indirect_colors
      = p.m_indirect_colors := by
  induction n generalizing i p with
  | zero => rfl
  | succ n ih => rw [for_loop, ih]; rfl

theorem palette_body_eq (color_prom : Nat → uint8_t) :
    palette_body color_prom = fun j q => palette_device.set_indirect_color q j
      (rgb_t.make (palette_components (color_prom j).val).1
        (palette_components (color_prom j).val).2.1 (palette_components (color_prom j).val).2.2) :=
  rfl

theorem characters_body_eq (color_prom : Nat → uint8_t) :
    characters_body color_prom = fun j q => palette_device.set_pen_indirect q j
      (to_uint8 (((color_prom j).val &&& 0x0f) ||| 0x10)) :=
  rfl

theorem sprites_body_eq (color_prom : Nat → uint8_t) :
    sprites_body color_prom = fun j q => palette_device.set_pen_indirect q j
      (to_uint8 (bitswap8 (color_prom j).val 7 6 5 4 0 1 2 3)) :=
  rfl

/-- The indirect colour table after `pingpong_palette`: entries 0..0x1f come
from the first loop, the others are left as they were. -/
theorem pingpong_palette_colors (proms : Nat → uint8_t) (palette : palette_device) (k : Nat) :
    (pingpong_palette proms palette).m_indirect_colors k
      = if k < 0x20 then
          some (rgb_t.make (palette_components (proms k).val).1
            (palette_components (proms k).val).2.1 (palette_components (proms k).val).2.2)
        else palette.m_indirect_colors k := by
  have e : (0 ≤ k ∧ k < 0 + 0x20) ↔ k < 0x20 := by omega
  unfold pingpong_palette
  simp only [palette_body_eq, characters_body_eq, sprites_body_eq]
  rw [for_loop_set_pen_indirect_colors, for_loop_set_pen_indirect_colors,
    for_loop_set_indirect_color_colors]
  simp only [e]

/-- The pen table after `pingpong_palette`: pens 0..0xff come from the
character loop, pens 0x100..0x1ff from the sprite loop, the others are left as
they were. -/
theorem pingpong_palette_pens (proms : Nat → uint8_t) (palette : palette_device) (k : Nat) :
    (pingpong_palette proms palette).m_indirect_pens k
      = if 0x100 ≤ k ∧ k < 0x200 then
          some (to_uint8 (bitswap8 (proms (0x20 + k)).val 7 6 5 4 0 1 2 3))
        else if k < 0x100 then
          some (to_uint8 (((proms (0x20 + k)).val &&& 0x0f) ||| 0x10))
        else palette.m_indirect_pens k := by
  have e1 : (0x100 ≤ k ∧ k < 0x100 + (0x200 - 0x100)) ↔ (0x100 ≤ k ∧ k < 0x200) := by omega
  have e2 : (0 ≤ k ∧ k < 0 + 0x100) ↔ k < 0x100 := by omega
  unfold pingpong_palette
  simp only [palette_body_eq, characters_body_eq, sprites_body_eq]
  rw [for_loop_set_pen_indirect_pens, for_loop_set_pen_indirect_pens,
    for_loop_set_indirect_color_pens]
  simp only [e1, e2]

/-! ## Facts about one PROM byte -/

set_option maxRecDepth 100000 in
theorem palette_components_bits : ∀ v : uint8_t,
    palette_components v.val
      = (0x21 * bit_of v.val 0 + 0x47 * bit_of v.val 1 + 0x97 * bit_of v.val 2,
         0x21 * bit_of v.val 3 + 0x47 * bit_of v.val 4 + 0x97 * bit_of v.val 5,
         0x47 * bit_of v.val 6 + 0x97 * bit_of v.val 7) := by
  decide

set_option maxRecDepth 100000 in
theorem palette_components_bounds : ∀ v : uint8_t,
    (palette_components v.val).1 ≤ 255 ∧ (palette_components v.val).2.1 ≤ 255 ∧
    (palette_components v.val).2.2 ≤ 222 := by
  decide

set_option maxRecDepth 100000 in
theorem palette_components_extremes : ∀ v : uint8_t,
    ((palette_components v.val).1 = 255 ↔
      (bit_of v.val 0 = 1 ∧ bit_of v.val 1 = 1 ∧ bit_of v.val 2 = 1)) ∧
    ((palette_components v.val).2.1 = 255 ↔
      (bit_of v.val 3 = 1 ∧ bit_of v.val 4 = 1 ∧ bit_of v.val 5 = 1)) ∧
    ((palette_components v.val).2.2 = 222 ↔ (bit_of v.val 6 = 1 ∧ bit_of v.val 7 = 1)) := by
  decide

set_option maxRecDepth 100000 in
theorem characters_entry_byte : ∀ v : uint8_t,
    to_uint8 ((v.val &&& 0x0f) ||| 0x10) = (v.val &&& 0x0f) ||| 0x10 ∧
    (v.val &&& 0x0f) ||| 0x10 = 0x10 + v.val % 16 := by
  decide

set_option maxRecDepth 100000 in
theorem sprites_entry_byte : ∀ v : uint8_t,
    to_uint8 (bitswap8 v.val 7 6 5 4 0 1 2 3) < 256 ∧
    bit_of (to_uint8 (bitswap8 v.val 7 6 5 4 0 1 2 3)) 7 = bit_of v.val 7 ∧
    bit_of (to_uint8 (bitswap8 v.val 7 6 5 4 0 1 2 3)) 6 = bit_of v.val 6 ∧
    bit_of (to_uint8 (bitswap8 v.val 7 6 5 4 0 1 2 3)) 5 = bit_of v.val 5 ∧
    bit_of (to_uint8 (bitswap8 v.val 7 6 5 4 0 1 2 3)) 4 = bit_of v.val 4 ∧
    bit_of (to_uint8 (bitswap8 v.val 7 6 5 4 0 1 2 3)) 3 = bit_of v.val 0 ∧
    bit_of (to_uint8 (bitswap8 v.val 7 6 5 4 0 1 2 3)) 2 = bit_of v.val 1 ∧
    bit_of (to_uint8 (bitswap8 v.val 7 6 5 4 0 1 2 3)) 1 = bit_of v.val 2 ∧
    bit_of (to_uint8 (bitswap8 v.val 7 6 5 4 0 1 2 3)) 0 = bit_of v.val 3 := by
  decide

set_option maxRecDepth 100000 in
theorem sprites_entry_below : ∀ v : uint8_t,
    (to_uint8 (bitswap8 v.val 7 6 5 4 0 1 2 3) < 0x20 ↔ v.val < 0x20) := by
  decide

/-! ## The claims on `pingpong_palette` -/

/-- Claim C1. For every PROM content and every index `i < 0x20`,
`pingpong_palette` sets indirect colour `i` to `rgb(r, g, b)` with
`r = 0x21*bit0 + 0x47*bit1 + 0x97*bit2`, `g = 0x21*bit3 + 0x47*bit4 + 0x97*bit5`
and `b = 0x47*bit6 + 0x97*bit7` of PROM byte `i`; the entry is the same for any
other PROM and palette with the same byte `i`; and in each component the
higher bit carries the larger weight. -/
theorem pingpong_palette_indirect_color (proms : Nat → uint8_t) (palette : palette_device)
    (i : Nat) (hi : i < 0x20) :
    (pingpong_palette proms palette).m_indirect_colors i
      = some (rgb_t.mk
          (0x21 * bit_of (proms i).val 0 + 0x47 * bit_of (proms i).val 1
            + 0x97 * bit_of (proms i).val 2)
          (0x21 * bit_of (proms i).val 3 + 0x47 * bit_of (proms i).val 4
            + 0x97 * bit_of (proms i).val 5)
          (0x47 * bit_of (proms i).val 6 + 0x97 * bit_of (proms i).val 7))
    ∧ (∀ (proms2 : Nat → uint8_t) (palette2 : palette_device), proms2 i = proms i →
        (pingpong_palette proms2 palette2).m_indirect_colors i
          = (pingpong_palette proms palette).m_indirect_colors i)
    ∧ ((0x21 : Nat) < 0x47 ∧ (0x47 : Nat) < 0x97) := by
  refine ⟨?_, ?_, by decide⟩
  · rw [pingpong_palette_colors, if_pos hi]
    have hb := palette_components_bounds (proms i)
    have hv := palette_components_bits (proms i)
    have h1 : (palette_components (proms i).val).1 % 256 = (palette_components (proms i).val).1 :=
      Nat.mod_eq_of_lt (by omega)
    have h2 : (palette_components (proms i).val).2.1 % 256
        = (palette_components (proms i).val).2.1 := Nat.mod_eq_of_lt (by omega)
    have h3 : (palette_components (proms i).val).2.2 % 256
        = (palette_components (proms i).val).2.2 := Nat.mod_eq_of_lt (by omega)
    simp only [rgb_t.make, to_uint8, h1, h2, h3]
    rw [hv]
  · intro proms2 palette2 h
    rw [pingpong_palette_colors, pingpong_palette_colors, if_pos hi, if_pos hi, h]

/-- Witness for C1 at index 3 of the sample PROM, whose byte is 0x18. -/
theorem pingpong_palette_indirect_color_witness :
    3 < 0x20 ∧
    (pingpong_palette sample_proms palette_device.fresh).m_indirect_colors 3
      = some (rgb_t.mk 0 104 0) :=
  ⟨by decide, (pingpong_palette_indirect_color sample_proms palette_device.fresh 3 (by decide)).1⟩

/-- Claim C2. For every PROM content and every character pen `i < 0x100`,
`pingpong_palette` assigns pen `i` the index `(P[0x20 + i] & 0x0f) | 0x10`; the
index is `0x10` plus the low nibble, lies in `0x10..0x1f`, and is the same for
any other PROM and palette whose byte at `0x20 + i` has the same low nibble. -/
theorem pingpong_palette_character_pen (proms : Nat → uint8_t) (palette : palette_device)
    (i : Nat) (hi : i < 0x100) :
    (pingpong_palette proms palette).m_indirect_pens i
      = some (((proms (0x20 + i)).val &&& 0x0f) ||| 0x10)
    ∧ ((proms (0x20 + i)).val &&& 0x0f) ||| 0x10 = 0x10 + (proms (0x20 + i)).val % 16
    ∧ 0x10 ≤ ((proms (0x20 + i)).val &&& 0x0f) ||| 0x10
    ∧ ((proms (0x20 + i)).val &&& 0x0f) ||| 0x10 ≤ 0x1f
    ∧ (∀ (proms2 : Nat → uint8_t) (palette2 : palette_device),
        (proms2 (0x20 + i)).val % 16 = (proms (0x20 + i)).val % 16 →
        (pingpong_palette proms2 palette2).m_indirect_pens i
          = (pingpong_palette proms palette).m_indirect_pens i) := by
  have hn : ¬ (0x100 ≤ i ∧ i < 0x200) := by omega
  have hv := characters_entry_byte (proms (0x20 + i))
  refine ⟨?_, hv.2, ?_, ?_, ?_⟩
  · rw [pingpong_palette_pens, if_neg hn, if_pos hi, hv.1]
  · rw [hv.2]; omega
  · rw [hv.2]; omega
  · intro proms2 palette2 h
    have hv2 := characters_entry_byte (proms2 (0x20 + i))
    rw [pingpong_palette_pens, pingpong_palette_pens, if_neg hn, if_neg hn, if_pos hi, if_pos hi,
      hv.1, hv2.1, hv.2, hv2.2, h]

/-- Witness for C2 at pen 5 of the sample PROM, whose byte at 0x25 is 0x06. -/
theorem pingpong_palette_character_pen_witness :
    5 < 0x100 ∧
    (pingpong_palette sample_proms palette_device.fresh).m_indirect_pens 5 = some 0x16 :=
  ⟨by decide, (pingpong_palette_character_pen sample_proms palette_device.fresh 5 (by decide)).1⟩

/-- Claim C3. For every PROM content and every sprite pen `i` with
`0x100 <= i < 0x200`, `pingpong_palette` assigns pen `i` an 8-bit index whose
bits 7..4 are bits 7..4 of the byte `v` at PROM offset `0x20 + i` and whose
bits 3, 2, 1, 0 are bits 0, 1, 2, 3 of `v`. -/
theorem pingpong_palette_sprite_pen (proms : Nat → uint8_t) (palette : palette_device)
    (i : Nat) (hlo : 0x100 ≤ i) (hhi : i < 0x200) :
    ∃ w : Nat, (pingpong_palette proms palette).m_indirect_pens i = some w ∧ w < 256 ∧
      bit_of w 7 = bit_of (proms (0x20 + i)).val 7 ∧
      bit_of w 6 = bit_of (proms (0x20 + i)).val 6 ∧
      bit_of w 5 = bit_of (proms (0x20 + i)).val 5 ∧
      bit_of w 4 = bit_of (proms (0x20 + i)).val 4 ∧
      bit_of w 3 = bit_of (proms (0x20 + i)).val 0 ∧
      bit_of w 2 = bit_of (proms (0x20 + i)).val 1 ∧
      bit_of w 1 = bit_of (proms (0x20 + i)).val 2 ∧
      bit_of w 0 = bit_of (proms (0x20 + i)).val 3 := by
  refine ⟨to_uint8 (bitswap8 (proms (0x20 + i)).val 7 6 5 4 0 1 2 3), ?_,
    sprites_entry_byte (proms (0x20 + i))⟩
  rw [pingpong_palette_pens, if_pos ⟨hlo, hhi⟩]

/-- Witness for C3 at pen 0x100 of the sample PROM, whose byte at 0x120 is
0xe3: the index is 0xec. -/
theorem pingpong_palette_sprite_pen_witness :
    (0x100 ≤ 0x100 ∧ 0x100 < 0x200) ∧
    ∃ w : Nat, (pingpong_palette sample_proms palette_device.fresh).m_indirect_pens 0x100 = some w ∧
      w < 256 ∧
      bit_of w 7 = bit_of (sample_proms (0x20 + 0x100)).val 7 ∧
      bit_of w 6 = bit_of (sample_proms (0x20 + 0x100)).val 6 ∧
      bit_of w 5 = bit_of (sample_proms (0x20 + 0x100)).val 5 ∧
      bit_of w 4 = bit_of (sample_proms (0x20 + 0x100)).val 4 ∧
      bit_of w 3 = bit_of (sample_proms (0x20 + 0x100)).val 0 ∧
      bit_of w 2 = bit_of (sample_proms (0x20 + 0x100)).val 1 ∧
      bit_of w 1 = bit_of (sample_proms (0x20 + 0x100)).val 2 ∧
      bit_of w 0 = bit_of (sample_proms (0x20 + 0x100)).val 3 :=
  ⟨by decide,
    pingpong_palette_sprite_pen sample_proms palette_device.fresh 0x100 (by decide) (by decide)⟩

/-- Counterexample to C9 as stated: with the byte 0x20 at PROM offset 0x120,
sprite pen 0x100 receives the indirect colour index 0x20, which is not below
0x20 and which the first loop has not defined. -/
theorem pingpong_palette_sprite_pen_out_of_palette :
    (pingpong_palette proms_high_bit palette_device.fresh).m_indirect_pens 0x100 = some 0x20 ∧
    ¬ (∃ w : Nat, (pingpong_palette proms_high_bit palette_device.fresh).m_indirect_pens 0x100
        = some w ∧ w < 0x20) ∧
    (pingpong_palette proms_high_bit palette_device.fresh).m_indirect_colors 0x20 = none := by
  have h : (pingpong_palette proms_high_bit palette_device.fresh).m_indirect_pens 0x100
      = some 0x20 := by
    rw [pingpong_palette_pens, if_pos (by decide)]
    decide
  refine ⟨h, ?_, ?_⟩
  · rintro ⟨w, hw, hlt⟩
    rw [h] at hw
    injection hw with hw
    omega
  · rw [pingpong_palette_colors, if_neg (by decide)]
    rfl

/-- Claim C9, amended. For every content of the PROM region and every pen
`i < 0x200`, `pingpong_palette` assigns the pen an index `w`; a character pen
(`i < 0x100`) has `0x10 <= w < 0x20`; a sprite pen (`0x100 <= i`) has `w < 0x20`
exactly when the byte at PROM offset `0x20 + i` is below 0x20; and whenever
`w < 0x20` the index refers to a palette entry that the first loop defines. -/
theorem pingpong_palette_pen_index (proms : Nat → uint8_t) (palette : palette_device)
    (i : Nat) (hi : i < 0x200) :
    ∃ w : Nat, (pingpong_palette proms palette).m_indirect_pens i = some w ∧
      (i < 0x100 → 0x10 ≤ w ∧ w < 0x20) ∧
      (0x100 ≤ i → (w < 0x20 ↔ (proms (0x20 + i)).val < 0x20)) ∧
      (w < 0x20 → ∃ c : rgb_t, (pingpong_palette proms palette).m_indirect_colors w = some c) := by
  have hcol : ∀ w : Nat, w < 0x20 →
      ∃ c : rgb_t, (pingpong_palette proms palette).m_indirect_colors w = some c := by
    intro w hw
    exact ⟨_, by rw [pingpong_palette_colors, if_pos hw]⟩
  by_cases h : 0x100 ≤ i
  · refine ⟨to_uint8 (bitswap8 (proms (0x20 + i)).val 7 6 5 4 0 1 2 3), ?_, ?_, ?_, hcol _⟩
    · rw [pingpong_palette_pens, if_pos ⟨h, hi⟩]
    · intro h2; omega
    · intro _; exact sprites_entry_below (proms (0x20 + i))
  · have hn : ¬ (0x100 ≤ i ∧ i < 0x200) := by omega
    have hv := characters_entry_byte (proms (0x20 + i))
    refine ⟨((proms (0x20 + i)).val &&& 0x0f) ||| 0x10, ?_, ?_, ?_, hcol _⟩
    · rw [pingpong_palette_pens, if_neg hn, if_pos (by omega), hv.1]
    · intro _; rw [hv.2]; omega
    · intro h2; omega

/-- Witness for the amended C9 at sprite pen 0x100 of the PROM above. -/
theorem pingpong_palette_pen_index_witness :
    0x100 < 0x200 ∧
    ∃ w : Nat, (pingpong_palette proms_high_bit palette_device.fresh).m_indirect_pens 0x100
        = some w ∧
      (0x100 < 0x100 → 0x10 ≤ w ∧ w < 0x20) ∧
      (0x100 ≤ 0x100 → (w < 0x20 ↔ (proms_high_bit (0x20 + 0x100)).val < 0x20)) ∧
      (w < 0x20 → ∃ c : rgb_t,
        (pingpong_palette proms_high_bit palette_device.fresh).m_indirect_colors w = some c) :=
  ⟨by decide, pingpong_palette_pen_index proms_high_bit palette_device.fresh 0x100 (by decide)⟩

/-- Claim C10. For every PROM byte that the first loop of `pingpong_palette`
decodes, the components `r`, `g`, `b` it computes are stored without truncation
and satisfy `r <= 255`, `g <= 255`, `b <= 222`; `r = 255` exactly when bits 0-2
are all set, `g = 255` exactly when bits 3-5 are all set, `b = 222` exactly when
bits 6-7 are both set; and the byte 0 gives `(0, 0, 0)`. -/
theorem pingpong_palette_components_fit (proms : Nat → uint8_t) (palette : palette_device)
    (i : Nat) (hi : i < 0x20) :
    ∃ r g b : Nat, palette_components (proms i).val = (r, g, b) ∧
      (pingpong_palette proms palette).m_indirect_colors i = some (rgb_t.mk r g b) ∧
      r ≤ 255 ∧ g ≤ 255 ∧ b ≤ 222 ∧
      (r = 255 ↔ (bit_of (proms i).val 0 = 1 ∧ bit_of (proms i).val 1 = 1 ∧
        bit_of (proms i).val 2 = 1)) ∧
      (g = 255 ↔ (bit_of (proms i).val 3 = 1 ∧ bit_of (proms i).val 4 = 1 ∧
        bit_of (proms i).val 5 = 1)) ∧
      (b = 222 ↔ (bit_of (proms i).val 6 = 1 ∧ bit_of (proms i).val 7 = 1)) ∧
      ((proms i).val = 0 → r = 0 ∧ g = 0 ∧ b = 0) := by
  have hb := palette_components_bounds (proms i)
  have he := palette_components_extremes (proms i)
  refine ⟨(palette_components (proms i).val).1, (palette_components (proms i).val).2.1,
    (palette_components (proms i).val).2.2, rfl, ?_, hb.1, hb.2.1, hb.2.2, he.1, he.2.1, he.2.2, ?_⟩
  · rw [pingpong_palette_colors, if_pos hi]
    have h1 : (palette_components (proms i).val).1 % 256 = (palette_components (proms i).val).1 :=
      Nat.mod_eq_of_lt (by omega)
    have h2 : (palette_components (proms i).val).2.1 % 256
        = (palette_components (proms i).val).2.1 := Nat.mod_eq_of_lt (by omega)
    have h3 : (palette_components (proms i).val).2.2 % 256
        = (palette_components (proms i).val).2.2 := Nat.mod_eq_of_lt (by omega)
    simp only [rgb_t.make, to_uint8, h1, h2, h3]
  · intro h0
    rw [h0]
    decide

/-- Witness for C10 at index 7 of a PROM region filled with 0xff: the
components are (255, 255, 222). -/
theorem pingpong_palette_components_fit_witness :
    7 < 0x20 ∧
    ∃ r g b : Nat, palette_components (proms_all_set 7).val = (r, g, b) ∧
      (pingpong_palette proms_all_set palette_device.fresh).m_indirect_colors 7
        = some (rgb_t.mk r g b) ∧
      r ≤ 255 ∧ g ≤ 255 ∧ b ≤ 222 ∧
      (r = 255 ↔ (bit_of (proms_all_set 7).val 0 = 1 ∧
        bit_of (proms_all_set 7).val 1 = 1 ∧
        bit_of (proms_all_set 7).val 2 = 1)) ∧
      (g = 255 ↔ (bit_of (proms_all_set 7).val 3 = 1 ∧
        bit_of (proms_all_set 7).val 4 = 1 ∧
        bit_of (proms_all_set 7).val 5 = 1)) ∧
      (b = 222 ↔ (bit_of (proms_all_set 7).val 6 = 1 ∧
        bit_of (proms_all_set 7).val 7 = 1)) ∧
      ((proms_all_set 7).val = 0 → r = 0 ∧ g = 0 ∧ b = 0) :=
  ⟨by decide, pingpong_palette_components_fit proms_all_set palette_device.fresh 7 (by decide)⟩

/-! ## The claim on `get_bg_tile_info` -/

set_option maxRecDepth 100000 in
theorem attr_byte_bits : ∀ a : uint8_t,
    (a.val &&& 0x20) <<< 3 = 0x100 * bit_of a.val 5 ∧
    (a.val &&& 0x40 ≠ 0 ↔ bit_of a.val 6 = 1) ∧
    (a.val &&& 0x80 ≠ 0 ↔ bit_of a.val 7 = 1) ∧
    bit_of a.val 5 ≤ 1 := by
  decide

/-- Reading one flag back from `(if p then X else 0) | (if q then Y else 0)`
when the two flag constants are non-zero and share no bit. -/
theorem flags_and_left (X Y : Nat) (p q : Prop) [Decidable p] [Decidable q]
    (hx : X ≠ 0) (hxy : X &&& Y = 0) :
    (((if p then X else 0) ||| (if q then Y else 0)) &&& X ≠ 0 ↔ p) := by
  have hyx : Y &&& X = 0 := by rw [Nat.and_comm]; exact hxy
  by_cases hp : p <;> by_cases hq : q
  · rw [if_pos hp, if_pos hq, Nat.and_comm, Nat.and_or_distrib_left, Nat.and_self, hxy,
      Nat.or_zero]
    exact iff_of_true hx hp
  · rw [if_pos hp, if_neg hq, Nat.or_zero, Nat.and_self]
    exact iff_of_true hx hp
  · rw [if_neg hp, if_pos hq, Nat.zero_or, hyx]
    exact iff_of_false (fun h => h rfl) hp
  · rw [if_neg hp, if_neg hq, Nat.or_zero, Nat.zero_and]
    exact iff_of_false (fun h => h rfl) hp

/-- Claim C4. For every tile index and every RAM content, `get_bg_tile_info`
reports graphics set 0, code `videoram[t] + 0x100 * bit5(colorram[t])` (at most
0x1ff), colour `colorram[t] & 0x1f`, the horizontal flip flag exactly when bit 6
of `colorram[t]` is set and the vertical flip flag exactly when bit 7 is set;
the result is the same in any state with the same `videoram[t]` and
`colorram[t]`.  The two flag constants belong to the framework; they are
assumed non-zero and without a common bit. -/
theorem get_bg_tile_info_decodes (TILE_FLIPX TILE_FLIPY : Nat) (s : pingpong_state) (t : Nat)
    (hx : TILE_FLIPX ≠ 0) (hy : TILE_FLIPY ≠ 0) (hxy : TILE_FLIPX &&& TILE_FLIPY = 0) :
    (get_bg_tile_info TILE_FLIPX TILE_FLIPY s t).gfxnum = 0 ∧
    (get_bg_tile_info TILE_FLIPX TILE_FLIPY s t).code
      = (s.m_videoram t).val + 0x100 * bit_of (s.m_colorram t).val 5 ∧
    (get_bg_tile_info TILE_FLIPX TILE_FLIPY s t).code ≤ 0x1ff ∧
    (get_bg_tile_info TILE_FLIPX TILE_FLIPY s t).color = (s.m_colorram t).val &&& 0x1f ∧
    ((get_bg_tile_info TILE_FLIPX TILE_FLIPY s t).flags &&& TILE_FLIPX ≠ 0
      ↔ bit_of (s.m_colorram t).val 6 = 1) ∧
    ((get_bg_tile_info TILE_FLIPX TILE_FLIPY s t).flags &&& TILE_FLIPY ≠ 0
      ↔ bit_of (s.m_colorram t).val 7 = 1) ∧
    (∀ s2 : pingpong_state, s2.m_videoram t = s.m_videoram t → s2.m_colorram t = s.m_colorram t →
      get_bg_tile_info TILE_FLIPX TILE_FLIPY s2 t = get_bg_tile_info TILE_FLIPX TILE_FLIPY s t) := by
  have ha := attr_byte_bits (s.m_colorram t)
  have hv : (s.m_videoram t).val < 256 := (s.m_videoram t).isLt
  have hyx : TILE_FLIPY &&& TILE_FLIPX = 0 := by rw [Nat.and_comm]; exact hxy
  refine ⟨rfl, ?_, ?_, rfl, ?_, ?_, ?_⟩
  · show (s.m_videoram t).val + (((s.m_colorram t).val &&& 0x20) <<< 3) = _
    rw [ha.1]
  · show (s.m_videoram t).val + (((s.m_colorram t).val &&& 0x20) <<< 3) ≤ _
    rw [ha.1]
    have := ha.2.2.2
    omega
  · rw [← ha.2.1]
    exact flags_and_left TILE_FLIPX TILE_FLIPY _ _ hx hxy
  · rw [← ha.2.2.1]
    show ((if (s.m_colorram t).val &&& 0x40 ≠ 0 then TILE_FLIPX else 0) |||
      (if (s.m_colorram t).val &&& 0x80 ≠ 0 then TILE_FLIPY else 0)) &&& TILE_FLIPY ≠ 0 ↔ _
    rw [Nat.or_comm]
    exact flags_and_left TILE_FLIPY TILE_FLIPX _ _ hy hyx
  · intro s2 h1 h2
    simp only [get_bg_tile_info, h1, h2]

/-- Witness for C4 at tile 0 of the sample state (video byte 0x01, colour byte
0xe5), with the flag constants 1 and 2. -/
theorem get_bg_tile_info_decodes_witness :
    ((1 : Nat) ≠ 0 ∧ (2 : Nat) ≠ 0 ∧ (1 : Nat) &&& 2 = 0) ∧
    (get_bg_tile_info 1 2 sample_state 0).gfxnum = 0 ∧
    (get_bg_tile_info 1 2 sample_state 0).code
      = (sample_state.m_videoram 0).val + 0x100 * bit_of (sample_state.m_colorram 0).val 5 ∧
    (get_bg_tile_info 1 2 sample_state 0).code ≤ 0x1ff ∧
    (get_bg_tile_info 1 2 sample_state 0).color = (sample_state.m_colorram 0).val &&& 0x1f ∧
    ((get_bg_tile_info 1 2 sample_state 0).flags &&& 1 ≠ 0
      ↔ bit_of (sample_state.m_colorram 0).val 6 = 1) ∧
    ((get_bg_tile_info 1 2 sample_state 0).flags &&& 2 ≠ 0
      ↔ bit_of (sample_state.m_colorram 0).val 7 = 1) ∧
    (∀ s2 : pingpong_state, s2.m_videoram 0 = sample_state.m_videoram 0 →
      s2.m_colorram 0 = sample_state.m_colorram 0 →
      get_bg_tile_info 1 2 s2 0 = get_bg_tile_info 1 2 sample_state 0) :=
  ⟨by decide, get_bg_tile_info_decodes 1 2 sample_state 0 (by decide) (by decide) (by decide)⟩


/-! ## Lemmas on the sprite loop -/

theorem spriteram_read_ofNat (spriteram : List uint8_t) (k : Nat) :
    spriteram_read spriteram (k : Int) = (spriteram.get? k).map Fin.val := by
  simp [spriteram_read]

theorem spriteram_read_some_iff (spriteram : List uint8_t) (i : Int) :
    (∃ b, spriteram_read spriteram i = some b) ↔ (0 ≤ i ∧ i < spriteram.length) := by
  unfold spriteram_read
  constructor
  · rintro ⟨b, hb⟩
    by_cases h0 : 0 ≤ i
    · rw [if_pos h0] at hb
      refine ⟨h0, ?_⟩
      by_contra hge
      rw [List.get?_eq_none.mpr (by omega)] at hb
      exact Option.noConfusion hb
    · rw [if_neg h0] at hb
      exact Option.noConfusion hb
  · rintro ⟨h0, hlt⟩
    rw [if_pos h0, List.get?_eq_get (by omega)]
    exact ⟨_, rfl⟩

/-- A 32-bit sum or difference that stays inside the range of `int` has its
mathematical value. -/
theorem int_wrap_eq (x : Int) (hlo : -2 ^ 31 ≤ x) (hhi : x < 2 ^ 31) : int_wrap x = x := by
  unfold int_wrap
  omega

/-- The body at an offset whose four bytes lie inside sprite RAM and whose index
sums do not overflow. -/
theorem draw_sprites_body_eq (spriteram : List uint8_t) (area : rectangle) (o : Nat)
    (b0 b1 b2 b3 : uint8_t) (ho : o + 3 < 2 ^ 31) (h0 : spriteram.get? o = some b0)
    (h1 : spriteram.get? (o + 1) = some b1) (h2 : spriteram.get? (o + 2) = some b2)
    (h3 : spriteram.get? (o + 3) = some b3) :
    draw_sprites_body spriteram area (o : Int)
      = some { gfx := 1, cliprect := area, code := b2.val &&& 0x7f, color := b0.val &&& 0x1f,
               flipx := b0.val &&& 0x40, flipy := b0.val &&& 0x80,
               destx := (b3.val : Int), desty := 241 - (b1.val : Int),
               trans_mask := ⟨1, b0.val &&& 0x1f, 0⟩ } := by
  have e1 : int_wrap ((o : Int) + 1) = ((o + 1 : Nat) : Int) := by
    rw [int_wrap_eq _ (by omega) (by omega)]; push_cast; ring
  have e2 : int_wrap ((o : Int) + 2) = ((o + 2 : Nat) : Int) := by
    rw [int_wrap_eq _ (by omega) (by omega)]; push_cast; ring
  have e3 : int_wrap ((o : Int) + 3) = ((o + 3 : Nat) : Int) := by
    rw [int_wrap_eq _ (by omega) (by omega)]; push_cast; ring
  unfold draw_sprites_body
  rw [e1, e2, e3]
  simp only [spriteram_read_ofNat, h0, h1, h2, h3]
  rfl

/-- The body succeeds at every offset whose four bytes lie inside sprite RAM
and whose index sums do not overflow. -/
theorem draw_sprites_body_some (spriteram : List uint8_t) (area : rectangle) (o : Int)
    (h0 : 0 ≤ o) (h3 : o + 3 < spriteram.length) (hi : o + 3 < 2 ^ 31) :
    ∃ call, draw_sprites_body spriteram area o = some call := by
  obtain ⟨k, rfl⟩ := Int.eq_ofNat_of_zero_le h0
  have hk : k + 3 < spriteram.length := by omega
  have g0 := List.get?_eq_get (l := spriteram) (n := k) (by omega)
  have g1 := List.get?_eq_get (l := spriteram) (n := k + 1) (by omega)
  have g2 := List.get?_eq_get (l := spriteram) (n := k + 2) (by omega)
  have g3 := List.get?_eq_get (l := spriteram) (n := k + 3) (by omega)
  exact ⟨_, draw_sprites_body_eq spriteram area k _ _ _ _ (by omega) g0 g1 g2 g3⟩

/-- Any call the body issues carries the clip rectangle the body was given. -/
theorem draw_sprites_body_cliprect (spriteram : List uint8_t) (area : rectangle) (o : Int)
    (call : transmask_call) (h : draw_sprites_body spriteram area o = some call) :
    call.cliprect = area := by
  unfold draw_sprites_body at h
  simp only [Option.bind_eq_bind, Option.bind_eq_some, Option.some.injEq] at h
  obtain ⟨_, _, _, _, _, _, _, _, _, _, _, _, rfl⟩ := h
  rfl

theorem draw_sprites_loop_neg (spriteram : List uint8_t) (area : rectangle) (fuel : Nat)
    (o : Int) (h : o < 0) : draw_sprites_loop spriteram area fuel o = some [] := by
  have hn : ¬ (o ≥ 0) := by omega
  cases fuel <;> simp [draw_sprites_loop, hn]

/-- Whenever the loop returns, every call in its result carries the clip
rectangle the loop was given. -/
theorem draw_sprites_loop_cliprect (spriteram : List uint8_t) (area : rectangle) :
    ∀ (fuel : Nat) (o : Int) (calls : List transmask_call),
      draw_sprites_loop spriteram area fuel o = some calls →
      ∀ call ∈ calls, call.cliprect = area := by
  intro fuel
  induction fuel with
  | zero =>
    intro o calls h call hmem
    by_cases ho : o ≥ 0
    · rw [draw_sprites_loop, if_pos ho] at h
      exact Option.noConfusion h
    · rw [draw_sprites_loop, if_neg ho] at h
      injection h with h
      rw [← h] at hmem
      exact absurd hmem (List.not_mem_nil _)
  | succ fuel ih =>
    intro o calls h call hmem
    by_cases ho : o ≥ 0
    · rw [draw_sprites_loop, if_pos ho] at h
      simp only [Option.bind_eq_bind, Option.bind_eq_some, Option.some.injEq] at h
      obtain ⟨c0, hc0, rest, hrest, rfl⟩ := h
      rcases List.mem_cons.mp hmem with rfl | hin
      · exact draw_sprites_body_cliprect _ _ _ _ hc0
      · exact ih _ _ hrest call hin
    · rw [draw_sprites_loop, if_neg ho] at h
      injection h with h
      rw [← h] at hmem
      exact absurd hmem (List.not_mem_nil _)

/-- The loop from an offset `o` with `4 * m <= o < 4 * m + 4` whose entry lies
inside sprite RAM and whose index sums do not overflow: it issues `m + 1`
calls, the `j`-th being the call of the body at offset `o - 4 * j`. -/
theorem draw_sprites_loop_spec (spriteram : List uint8_t) (area : rectangle) :
    ∀ (m fuel : Nat) (o : Int), 4 * (m : Int) ≤ o → o < 4 * (m : Int) + 4 → m < fuel →
      o + 4 ≤ spriteram.length → o + 3 < 2 ^ 31 →
      ∃ calls, draw_sprites_loop spriteram area fuel o = some calls ∧
        calls.length = m + 1 ∧
        ∀ j : Nat, j ≤ m → calls.get? j = draw_sprites_body spriteram area (o - 4 * (j : Int)) := by
  intro m
  induction m with
  | zero =>
    intro fuel o hlo hhi hf hlen hint
    obtain ⟨f, rfl⟩ : ∃ f, fuel = f + 1 := ⟨fuel - 1, by omega⟩
    have ho : o ≥ 0 := by omega
    obtain ⟨call, hcall⟩ := draw_sprites_body_some spriteram area o (by omega) (by omega) hint
    have hw : int_wrap (o - 4) = o - 4 := int_wrap_eq _ (by omega) (by omega)
    have hrest := draw_sprites_loop_neg spriteram area f (o - 4) (by omega)
    refine ⟨[call], ?_, rfl, ?_⟩
    · rw [draw_sprites_loop, if_pos ho, hcall, hw, hrest]; rfl
    · intro j hj
      have hj0 : j = 0 := by omega
      subst hj0
      have e : o - 4 * ((0 : Nat) : Int) = o := by simp
      rw [e, hcall]; rfl
  | succ m ih =>
    intro fuel o hlo hhi hf hlen hint
    obtain ⟨f, rfl⟩ : ∃ f, fuel = f + 1 := ⟨fuel - 1, by omega⟩
    have ho : o ≥ 0 := by omega
    obtain ⟨call, hcall⟩ := draw_sprites_body_some spriteram area o (by omega) (by omega) hint
    have hw : int_wrap (o - 4) = o - 4 := int_wrap_eq _ (by omega) (by omega)
    obtain ⟨rest, hrest, hlenr, hget⟩ := ih f (o - 4) (by push_cast at hlo ⊢; omega)
      (by push_cast at hhi ⊢; omega) (by omega) (by omega) (by omega)
    refine ⟨call :: rest, ?_, by simp [hlenr], ?_⟩
    · rw [draw_sprites_loop, if_pos ho, hcall, hw, hrest]; rfl
    · intro j hj
      cases j with
      | zero =>
        have e : o - 4 * ((0 : Nat) : Int) = o := by simp
        rw [e, hcall]; rfl
      | succ j =>
        have e : o - 4 * ((j + 1 : Nat) : Int) = o - 4 - 4 * (j : Int) := by push_cast; ring
        rw [e, ← hget j (by omega)]
        rfl

/-- The run of the loop from a start offset that is negative, or leaves a whole
entry inside sprite RAM with index sums that do not overflow: the calls do not
depend on the iteration bound once it covers them, and the `j`-th call is the
one of the body at `o - 4 * j`, an offset whose entry lies inside sprite RAM. -/
theorem draw_sprites_loop_run (spriteram : List uint8_t) (area : rectangle) (o : Int)
    (h : o < 0 ∨ (0 ≤ o ∧ o + 4 ≤ spriteram.length ∧ o + 3 < 2 ^ 31)) :
    ∃ calls, (∀ fuel : Nat, calls.length ≤ fuel →
        draw_sprites_loop spriteram area fuel o = some calls) ∧
      (o < 0 → calls = []) ∧
      (0 ≤ o → calls.length = o.toNat / 4 + 1) ∧
      ∀ j : Nat, j < calls.length →
        0 ≤ o - 4 * (j : Int) ∧ o - 4 * (j : Int) + 3 < spriteram.length ∧
        calls.get? j = draw_sprites_body spriteram area (o - 4 * (j : Int)) := by
  rcases h with h | ⟨h0, h4, hint⟩
  · refine ⟨[], fun fuel _ => draw_sprites_loop_neg _ _ _ _ h, fun _ => rfl, fun h0 => ?_, ?_⟩
    · omega
    · intro j hj
      simp at hj
  · obtain ⟨calls, hc, hl, hg⟩ := draw_sprites_loop_spec spriteram area (o.toNat / 4)
      (o.toNat / 4 + 1) o (by omega) (by omega) (by omega) h4 hint
    refine ⟨calls, ?_, fun hneg => ?_, fun _ => hl, ?_⟩
    · intro fuel hf
      obtain ⟨calls2, hc2, hl2, hg2⟩ := draw_sprites_loop_spec spriteram area (o.toNat / 4)
        fuel o (by omega) (by omega) (by omega) h4 hint
      have e : calls2 = calls := by
        apply List.ext_get?
        intro j
        by_cases hj : j ≤ o.toNat / 4
        · rw [hg j hj, hg2 j hj]
        · rw [List.get?_eq_none.mpr (by omega), List.get?_eq_none.mpr (by omega)]
      rw [hc2, e]
    · omega
    · intro j hj
      exact ⟨by omega, by omega, hg j (by omega)⟩

/-- For a sprite RAM of at most `2 ^ 31` bytes the start offset of the loop,
`bytes() - 4` in unsigned arithmetic converted to `int`, is `n - 4`. -/
theorem draw_sprites_start_eq (n : Nat) (hn : n ≤ 2 ^ 31) :
    int_of_size_t (size_t_sub n 4) = (n : Int) - 4 := by
  unfold int_of_size_t size_t_sub
  split <;> omega

/-- The calls of `draw_sprites` for a sprite RAM of `n` bytes, `n` at most
`2 ^ 31`: `n / 4` calls, the `j`-th being the call of the body at offset
`n - 4 - 4 * j`, whose entry lies inside sprite RAM; any iteration bound that
covers the calls gives the same result. -/
theorem draw_sprites_entries (s : pingpong_state) (cliprect : rectangle)
    (hfit : s.m_spriteram.length ≤ 2 ^ 31) :
    ∃ calls, draw_sprites s cliprect = some calls ∧ calls.length = s.m_spriteram.length / 4 ∧
      (∀ fuel : Nat, calls.length ≤ fuel →
        draw_sprites_loop s.m_spriteram ⟨0, 255, 32, 231⟩ fuel
          ((s.m_spriteram.length : Int) - 4) = some calls) ∧
      ∀ j : Nat, j < s.m_spriteram.length / 4 →
        calls.get? j = draw_sprites_body s.m_spriteram ⟨0, 255, 32, 231⟩
          ((s.m_spriteram.length : Int) - 4 - 4 * (j : Int)) := by
  have hs := draw_sprites_start_eq s.m_spriteram.length hfit
  obtain ⟨calls, hrun, hneg, hlen, hj⟩ := draw_sprites_loop_run s.m_spriteram
    ⟨0, 255, 32, 231⟩ ((s.m_spriteram.length : Int) - 4) (by omega)
  have hl : calls.length = s.m_spriteram.length / 4 := by
    by_cases h4 : 4 ≤ s.m_spriteram.length
    · rw [hlen (by omega)]; omega
    · rw [hneg (by omega)]
      simp
      omega
  refine ⟨calls, ?_, hl, hrun, fun j hjl => (hj j (by omega)).2.2⟩
  unfold draw_sprites
  simp only []
  rw [hs]
  exact hrun _ (by omega)

/-! ## The claims on `draw_sprites` and `screen_update_pingpong` -/

/-- Claim C5. For every 4-byte sprite entry `(b0, b1, b2, b3)` of a sprite RAM
that the `int` offsets of the source can address (at most `2 ^ 31` bytes),
`draw_sprites` issues one draw call of its own (the call in position
`n / 4 - 1 - k` of the `n / 4` calls, for entry `k`) on graphics set 1 with
tile code `b2 & 0x7f`, colour `b0 & 0x1f`, flip arguments `b0 & 0x40` and
`b0 & 0x80` (set exactly when bit 6, bit 7 of `b0` is set), x position `b3` in
`0..255`, y position `241 - b1` in `-14..241`, and the transparency mask
requested for graphics set 1 and the same colour `b0 & 0x1f`.  Entry `k` is at
offset `n mod 4 + 4 * k`, which is `4 * k` when the sprite RAM is a whole
number of entries. -/
theorem draw_sprites_entry_call (s : pingpong_state) (cliprect : rectangle) (k : Nat)
    (b0 b1 b2 b3 : uint8_t)
    (hfit : s.m_spriteram.length ≤ 2 ^ 31)
    (h0 : s.m_spriteram.get? (s.m_spriteram.length % 4 + 4 * k) = some b0)
    (h1 : s.m_spriteram.get? (s.m_spriteram.length % 4 + 4 * k + 1) = some b1)
    (h2 : s.m_spriteram.get? (s.m_spriteram.length % 4 + 4 * k + 2) = some b2)
    (h3 : s.m_spriteram.get? (s.m_spriteram.length % 4 + 4 * k + 3) = some b3) :
    ∃ calls, draw_sprites s cliprect = some calls ∧
      calls.length = s.m_spriteram.length / 4 ∧
      k < s.m_spriteram.length / 4 ∧
      calls.get? (s.m_spriteram.length / 4 - 1 - k)
        = some { gfx := 1, cliprect := ⟨0, 255, 32, 231⟩,
                 code := b2.val &&& 0x7f, color := b0.val &&& 0x1f,
                 flipx := b0.val &&& 0x40, flipy := b0.val &&& 0x80,
                 destx := (b3.val : Int), desty := 241 - (b1.val : Int),
                 trans_mask := ⟨1, b0.val &&& 0x1f, 0⟩ } ∧
      (b0.val &&& 0x40 ≠ 0 ↔ bit_of b0.val 6 = 1) ∧
      (b0.val &&& 0x80 ≠ 0 ↔ bit_of b0.val 7 = 1) ∧
      (0 ≤ (b3.val : Int) ∧ (b3.val : Int) ≤ 255) ∧
      (-14 ≤ 241 - (b1.val : Int) ∧ 241 - (b1.val : Int) ≤ 241) := by
  have hk : s.m_spriteram.length % 4 + 4 * k + 3 < s.m_spriteram.length := by
    by_contra hge
    rw [List.get?_eq_none.mpr (by omega)] at h3
    exact Option.noConfusion h3
  obtain ⟨calls, hc, hl, -, hg⟩ := draw_sprites_entries s cliprect hfit
  have ha := attr_byte_bits b0
  have hb1 := b1.isLt
  have hb3 := b3.isLt
  refine ⟨calls, hc, hl, by omega, ?_, ha.2.1, ha.2.2.1, ⟨by omega, by omega⟩,
    ⟨by omega, by omega⟩⟩
  have e : (s.m_spriteram.length : Int) - 4 - 4 * ((s.m_spriteram.length / 4 - 1 - k : Nat) : Int)
      = ((s.m_spriteram.length % 4 + 4 * k : Nat) : Int) := by omega
  rw [hg _ (by omega), e,
    draw_sprites_body_eq s.m_spriteram _ (s.m_spriteram.length % 4 + 4 * k) b0 b1 b2 b3
      (by omega) h0 h1 h2 h3]

/-- Witness for C5 at entry 0 of the sample state, the bytes
(0xc7, 250, 0x85, 16): the third and last of the three calls. -/
theorem draw_sprites_entry_call_witness :
    (sample_state.m_spriteram.length ≤ 2 ^ 31 ∧
      sample_state.m_spriteram.get? (sample_state.m_spriteram.length % 4 + 4 * 0) = some 0xc7 ∧
      sample_state.m_spriteram.get? (sample_state.m_spriteram.length % 4 + 4 * 0 + 1) = some 250 ∧
      sample_state.m_spriteram.get? (sample_state.m_spriteram.length % 4 + 4 * 0 + 2) = some 0x85 ∧
      sample_state.m_spriteram.get? (sample_state.m_spriteram.length % 4 + 4 * 0 + 3) = some 16) ∧
    ∃ calls, draw_sprites sample_state ⟨0, 255, 16, 239⟩ = some calls ∧
      calls.length = sample_state.m_spriteram.length / 4 ∧
      0 < sample_state.m_spriteram.length / 4 ∧
      calls.get? (sample_state.m_spriteram.length / 4 - 1 - 0)
        = some { gfx := 1, cliprect := ⟨0, 255, 32, 231⟩,
                 code := (0x85 : uint8_t).val &&& 0x7f, color := (0xc7 : uint8_t).val &&& 0x1f,
                 flipx := (0xc7 : uint8_t).val &&& 0x40, flipy := (0xc7 : uint8_t).val &&& 0x80,
                 destx := ((16 : uint8_t).val : Int), desty := 241 - ((250 : uint8_t).val : Int),
                 trans_mask := ⟨1, (0xc7 : uint8_t).val &&& 0x1f, 0⟩ } ∧
      ((0xc7 : uint8_t).val &&& 0x40 ≠ 0 ↔ bit_of (0xc7 : uint8_t).val 6 = 1) ∧
      ((0xc7 : uint8_t).val &&& 0x80 ≠ 0 ↔ bit_of (0xc7 : uint8_t).val 7 = 1) ∧
      (0 ≤ ((16 : uint8_t).val : Int) ∧ ((16 : uint8_t).val : Int) ≤ 255) ∧
      (-14 ≤ 241 - ((250 : uint8_t).val : Int) ∧ 241 - ((250 : uint8_t).val : Int) ≤ 241) :=
  ⟨by decide,
    draw_sprites_entry_call sample_state ⟨0, 255, 16, 239⟩ 0 0xc7 250 0x85 16
      (by decide) (by decide) (by decide) (by decide) (by decide)⟩

/-- Claim C6. For every sprite RAM content and every `cliprect` argument,
`draw_sprites` issues the same calls whatever `cliprect` it is given, and every
draw call it makes is clipped to the rectangle x in 0..255, y in 32..231, so no
pixel with `y < 32` or `y > 231` lies inside the clip; for a sprite RAM that the
`int` offsets of the source can address (at most `2 ^ 31` bytes) it does return
its `n / 4` calls. -/
theorem draw_sprites_fixed_clip (s : pingpong_state) (cliprect cliprect2 : rectangle) :
    draw_sprites s cliprect = draw_sprites s cliprect2 ∧
    (∀ calls, draw_sprites s cliprect = some calls →
      ∀ call ∈ calls, call.cliprect = ⟨0, 255, 32, 231⟩ ∧
        ∀ x y : Int, call.cliprect.contains x y → 0 ≤ x ∧ x ≤ 255 ∧ 32 ≤ y ∧ y ≤ 231) ∧
    (s.m_spriteram.length ≤ 2 ^ 31 →
      ∃ calls, draw_sprites s cliprect = some calls ∧
        calls.length = s.m_spriteram.length / 4) := by
  refine ⟨rfl, ?_, ?_⟩
  · intro calls hc call hmem
    have hclip : call.cliprect = ⟨0, 255, 32, 231⟩ :=
      draw_sprites_loop_cliprect s.m_spriteram ⟨0, 255, 32, 231⟩ _ _ calls hc call hmem
    refine ⟨hclip, ?_⟩
    intro x y hxy
    rw [hclip] at hxy
    exact hxy
  · intro hfit
    obtain ⟨calls, hc, hl, -, -⟩ := draw_sprites_entries s cliprect hfit
    exact ⟨calls, hc, hl⟩

/-- Witness for C6 on the sample state: it returns its three calls. -/
theorem draw_sprites_fixed_clip_witness :
    sample_state.m_spriteram.length ≤ 2 ^ 31 ∧
    ∃ calls, draw_sprites sample_state ⟨0, 255, 16, 239⟩ = some calls ∧
      calls.length = sample_state.m_spriteram.length / 4 :=
  ⟨by decide,
    (draw_sprites_fixed_clip sample_state ⟨0, 255, 16, 239⟩ ⟨0, 0, 0, 0⟩).2.2 (by decide)⟩

/-- Claim C7. For every machine state, a frame update that returns has issued
the background tilemap draw first and the sprite draw calls after it, returns
0, and hands back the machine state with video RAM, colour RAM and sprite RAM
unchanged; and for a sprite RAM that the `int` offsets of the source can
address (at most `2 ^ 31` bytes) `screen_update_pingpong` does return so. -/
theorem screen_update_pingpong_frame (s : pingpong_state) (cliprect : rectangle) :
    (∀ (s2 : pingpong_state) (ops : List draw_op) (ret : Nat),
      screen_update_pingpong s cliprect = some (s2, ops, ret) →
      ret = 0 ∧ s2.m_videoram = s.m_videoram ∧ s2.m_colorram = s.m_colorram ∧
      s2.m_spriteram = s.m_spriteram ∧
      ∃ sprites, draw_sprites s cliprect = some sprites ∧
        ops = draw_op.tilemap_draw cliprect 0 0 :: sprites.map draw_op.transmask) ∧
    (s.m_spriteram.length ≤ 2 ^ 31 →
      ∃ sprites, draw_sprites s cliprect = some sprites ∧
        sprites.length = s.m_spriteram.length / 4 ∧
        screen_update_pingpong s cliprect
          = some (s, draw_op.tilemap_draw cliprect 0 0 :: sprites.map draw_op.transmask, 0)) := by
  constructor
  · intro s2 ops ret h
    unfold screen_update_pingpong at h
    simp only [Option.bind_eq_bind, Option.bind_eq_some, Option.some.injEq,
      Prod.mk.injEq] at h
    obtain ⟨sprites, hs, rfl, rfl, rfl⟩ := h
    exact ⟨rfl, rfl, rfl, rfl, sprites, hs, rfl⟩
  · intro hfit
    obtain ⟨calls, hc, hl, -, -⟩ := draw_sprites_entries s cliprect hfit
    refine ⟨calls, hc, hl, ?_⟩
    unfold screen_update_pingpong
    rw [hc]
    rfl

/-- Witness for C7 on the sample state: the frame update returns. -/
theorem screen_update_pingpong_frame_witness :
    sample_state.m_spriteram.length ≤ 2 ^ 31 ∧
    ∃ sprites, draw_sprites sample_state ⟨0, 255, 16, 239⟩ = some sprites ∧
      sprites.length = sample_state.m_spriteram.length / 4 ∧
      screen_update_pingpong sample_state ⟨0, 255, 16, 239⟩
        = some (sample_state,
            draw_op.tilemap_draw ⟨0, 255, 16, 239⟩ 0 0 :: sprites.map draw_op.transmask, 0) :=
  ⟨by decide, (screen_update_pingpong_frame sample_state ⟨0, 255, 16, 239⟩).2 (by decide)⟩

/-- Claim C8. For every sprite RAM whose size `n` is a positive multiple of 4
(and that the `int` offsets of the source can address: at most `2 ^ 31`
bytes), `draw_sprites` issues exactly `n / 4` draw calls, the `j`-th of them
being the call of the loop body at offset `n - 4 - 4 * j`: the offsets run
`n - 4, n - 8, ..., 0`, and the last call is the one of the entry at offset 0. -/
theorem draw_sprites_descending (s : pingpong_state) (cliprect : rectangle)
    (hpos : 0 < s.m_spriteram.length) (hmul : s.m_spriteram.length % 4 = 0)
    (hfit : s.m_spriteram.length ≤ 2 ^ 31) :
    ∃ calls, draw_sprites s cliprect = some calls ∧
      calls.length = s.m_spriteram.length / 4 ∧
      (∀ j : Nat, j < s.m_spriteram.length / 4 →
        ∃ call, calls.get? j = some call ∧
          draw_sprites_body s.m_spriteram ⟨0, 255, 32, 231⟩
            ((s.m_spriteram.length : Int) - 4 - 4 * (j : Int)) = some call) ∧
      (∃ call, calls.getLast? = some call ∧
        draw_sprites_body s.m_spriteram ⟨0, 255, 32, 231⟩ 0 = some call) := by
  obtain ⟨calls, hc, hl, -, hg⟩ := draw_sprites_entries s cliprect hfit
  have hget : ∀ j : Nat, j < s.m_spriteram.length / 4 →
      ∃ call, calls.get? j = some call ∧
        draw_sprites_body s.m_spriteram ⟨0, 255, 32, 231⟩
          ((s.m_spriteram.length : Int) - 4 - 4 * (j : Int)) = some call := by
    intro j hj
    have hjl : j < calls.length := by omega
    refine ⟨calls.get ⟨j, hjl⟩, List.get?_eq_get hjl, ?_⟩
    have := hg j hj
    rw [List.get?_eq_get hjl] at this
    exact this.symm
  refine ⟨calls, hc, hl, hget, ?_⟩
  obtain ⟨call, h1, h2⟩ := hget (s.m_spriteram.length / 4 - 1) (by omega)
  refine ⟨call, ?_, ?_⟩
  · rw [List.getLast?_eq_getElem?, ← List.get?_eq_getElem?, hl]; exact h1
  · have e : (s.m_spriteram.length : Int) - 4
        - 4 * ((s.m_spriteram.length / 4 - 1 : Nat) : Int) = 0 := by omega
    rw [e] at h2
    exact h2

/-- Witness for C8 on the sample state, whose sprite RAM has 12 bytes. -/
theorem draw_sprites_descending_witness :
    (0 < sample_state.m_spriteram.length ∧ sample_state.m_spriteram.length % 4 = 0 ∧
      sample_state.m_spriteram.length ≤ 2 ^ 31) ∧
    ∃ calls, draw_sprites sample_state ⟨0, 255, 16, 239⟩ = some calls ∧
      calls.length = sample_state.m_spriteram.length / 4 ∧
      (∀ j : Nat, j < sample_state.m_spriteram.length / 4 →
        ∃ call, calls.get? j = some call ∧
          draw_sprites_body sample_state.m_spriteram ⟨0, 255, 32, 231⟩
            ((sample_state.m_spriteram.length : Int) - 4 - 4 * (j : Int)) = some call) ∧
      (∃ call, calls.getLast? = some call ∧
        draw_sprites_body sample_state.m_spriteram ⟨0, 255, 32, 231⟩ 0 = some call) :=
  ⟨by decide,
    draw_sprites_descending sample_state ⟨0, 255, 16, 239⟩ (by decide) (by decide) (by decide)⟩

/-! ## The claim on the bounds of the sprite loop -/

/-- Claim C11. For every sprite RAM size `n` that the `int` offsets of the
source can address (at most `2 ^ 31` bytes; sizes below 4 and sizes that are
not a multiple of 4 included), the loop start `n - 4`, computed in unsigned
arithmetic and converted to the signed `int`, is the integer `n - 4`;
`draw_sprites` returns, its loop ending after `n / 4` iterations whatever
larger bound is put on them; iteration `j` runs the body at
`offs = n - 4 - 4 * j`, and each index `offs + k`, `k < 4`, it reads is a sum
that does not overflow and satisfies `0 <= index < n`, a read giving a value
exactly for such indices; and for `n < 4` no draw call is issued. -/
theorem draw_sprites_reads_in_bounds (s : pingpong_state) (cliprect : rectangle)
    (hfit : s.m_spriteram.length ≤ 2 ^ 31) :
    ∃ calls, draw_sprites s cliprect = some calls ∧
      int_of_size_t (size_t_sub s.m_spriteram.length 4) = (s.m_spriteram.length : Int) - 4 ∧
      (∀ fuel : Nat, calls.length ≤ fuel →
        draw_sprites_loop s.m_spriteram ⟨0, 255, 32, 231⟩ fuel
          ((s.m_spriteram.length : Int) - 4) = some calls) ∧
      calls.length = s.m_spriteram.length / 4 ∧
      (∀ j : Nat, j < calls.length →
        calls.get? j = draw_sprites_body s.m_spriteram ⟨0, 255, 32, 231⟩
          ((s.m_spriteram.length : Int) - 4 - 4 * (j : Int)) ∧
        ∀ k : Nat, k < 4 →
          int_wrap ((s.m_spriteram.length : Int) - 4 - 4 * (j : Int) + (k : Int)) = ((s.m_spriteram.length : Int) - 4 - 4 * (j : Int) + (k : Int)) ∧
          0 ≤ ((s.m_spriteram.length : Int) - 4 - 4 * (j : Int) + (k : Int)) ∧
          ((s.m_spriteram.length : Int) - 4 - 4 * (j : Int) + (k : Int)) < s.m_spriteram.length ∧
          ∃ b, spriteram_read s.m_spriteram ((s.m_spriteram.length : Int) - 4 - 4 * (j : Int) + (k : Int)) = some b) ∧
      (∀ i : Int, (∃ b, spriteram_read s.m_spriteram i = some b)
        ↔ (0 ≤ i ∧ i < s.m_spriteram.length)) ∧
      (s.m_spriteram.length < 4 → calls = []) := by
  obtain ⟨calls, hc, hl, hrun, hg⟩ := draw_sprites_entries s cliprect hfit
  refine ⟨calls, hc, draw_sprites_start_eq _ hfit, hrun, hl, ?_,
    spriteram_read_some_iff s.m_spriteram, ?_⟩
  · intro j hjl
    refine ⟨hg j (by omega), ?_⟩
    intro k hk
    have hin : 0 ≤ (s.m_spriteram.length : Int) - 4 - 4 * (j : Int) + (k : Int) ∧
        (s.m_spriteram.length : Int) - 4 - 4 * (j : Int) + (k : Int)
          < s.m_spriteram.length := by omega
    exact ⟨int_wrap_eq _ (by omega) (by omega), hin.1, hin.2,
      (spriteram_read_some_iff s.m_spriteram _).mpr hin⟩
  · intro hn
    apply List.eq_nil_of_length_eq_zero
    rw [hl]
    omega

/-- Witness for C11 on a sprite RAM of 6 bytes: one call, from offset 2. -/
theorem draw_sprites_reads_in_bounds_witness :
    sample_state_odd.m_spriteram.length ≤ 2 ^ 31 ∧
    ∃ calls, draw_sprites sample_state_odd ⟨0, 255, 16, 239⟩ = some calls ∧
      int_of_size_t (size_t_sub sample_state_odd.m_spriteram.length 4) = (sample_state_odd.m_spriteram.length : Int) - 4 ∧
      (∀ fuel : Nat, calls.length ≤ fuel →
        draw_sprites_loop sample_state_odd.m_spriteram ⟨0, 255, 32, 231⟩ fuel
          ((sample_state_odd.m_spriteram.length : Int) - 4) = some calls) ∧
      calls.length = sample_state_odd.m_spriteram.length / 4 ∧
      (∀ j : Nat, j < calls.length →
        calls.get? j = draw_sprites_body sample_state_odd.m_spriteram ⟨0, 255, 32, 231⟩
          ((sample_state_odd.m_spriteram.length : Int) - 4 - 4 * (j : Int)) ∧
        ∀ k : Nat, k < 4 →
          int_wrap ((sample_state_odd.m_spriteram.length : Int) - 4 - 4 * (j : Int) + (k : Int)) = ((sample_state_odd.m_spriteram.length : Int) - 4 - 4 * (j : Int) + (k : Int)) ∧
          0 ≤ ((sample_state_odd.m_spriteram.length : Int) - 4 - 4 * (j : Int) + (k : Int)) ∧
          ((sample_state_odd.m_spriteram.length : Int) - 4 - 4 * (j : Int) + (k : Int)) < sample_state_odd.m_spriteram.length ∧
          ∃ b, spriteram_read sample_state_odd.m_spriteram ((sample_state_odd.m_spriteram.length : Int) - 4 - 4 * (j : Int) + (k : Int)) = some b) ∧
      (∀ i : Int, (∃ b, spriteram_read sample_state_odd.m_spriteram i = some b)
        ↔ (0 ≤ i ∧ i < sample_state_odd.m_spriteram.length)) ∧
      (sample_state_odd.m_spriteram.length < 4 → calls = []) :=
  ⟨by decide, draw_sprites_reads_in_bounds sample_state_odd ⟨0, 255, 16, 239⟩ (by decide)⟩

/-! ## The claim on the RAM write handlers -/

set_option maxRecDepth 100000 in
theorem code_low_byte : ∀ d : uint8_t,
    (d.val + 0x100 * 0) &&& 0xff = d.val ∧ (d.val + 0x100 * 1) &&& 0xff = d.val ∧
    (d.val + 0x100 * 0) >>> 8 = 0 ∧ (d.val + 0x100 * 1) >>> 8 = 1 := by
  decide

/-- The low byte of the tile code is the video RAM byte, and the bits above
it are bit 5 of the colour RAM byte. -/
theorem get_bg_tile_info_code_split (TILE_FLIPX TILE_FLIPY : Nat) (s : pingpong_state)
    (t : Nat) :
    (get_bg_tile_info TILE_FLIPX TILE_FLIPY s t).code &&& 0xff = (s.m_videoram t).val ∧
    (get_bg_tile_info TILE_FLIPX TILE_FLIPY s t).code >>> 8 = bit_of (s.m_colorram t).val 5 := by
  have ha := attr_byte_bits (s.m_colorram t)
  have hd := code_low_byte (s.m_videoram t)
  have hc : (get_bg_tile_info TILE_FLIPX TILE_FLIPY s t).code
      = (s.m_videoram t).val + 0x100 * bit_of (s.m_colorram t).val 5 := by
    show (s.m_videoram t).val + (((s.m_colorram t).val &&& 0x20) <<< 3) = _
    rw [ha.1]
  rw [hc]
  have hb : bit_of (s.m_colorram t).val 5 = 0 ∨ bit_of (s.m_colorram t).val 5 = 1 := by
    have := ha.2.2.2
    omega
  rcases hb with hb | hb <;> rw [hb]
  · exact ⟨hd.1, hd.2.2.1⟩
  · exact ⟨hd.2.1, hd.2.2.2⟩

/-- The tile info of a tile is the same in two states that agree on the video
RAM and colour RAM cells of that tile. -/
theorem get_bg_tile_info_congr (TILE_FLIPX TILE_FLIPY : Nat) (s s2 : pingpong_state) (t : Nat)
    (h1 : s2.m_videoram t = s.m_videoram t) (h2 : s2.m_colorram t = s.m_colorram t) :
    get_bg_tile_info TILE_FLIPX TILE_FLIPY s2 t = get_bg_tile_info TILE_FLIPX TILE_FLIPY s t := by
  simp only [get_bg_tile_info, h1, h2]

/-- Marking a tile dirty keeps the tilemap invariant when the RAM changes at
most in the cells of that tile. -/
theorem tilemap_valid_mark (TILE_FLIPX TILE_FLIPY : Nat) (s s2 : pingpong_state)
    (tm : tilemap_t) (offset : Nat) (hinv : tilemap_valid TILE_FLIPX TILE_FLIPY s tm)
    (hv : ∀ k : Nat, k ≠ offset → s2.m_videoram k = s.m_videoram k)
    (hc : ∀ k : Nat, k ≠ offset → s2.m_colorram k = s.m_colorram k) :
    tilemap_valid TILE_FLIPX TILE_FLIPY s2 (tm.run [tilemap_call.mark_tile_dirty offset]) := by
  intro t ht
  have hne : t ≠ offset := by
    intro he
    subst he
    simp [tilemap_t.run, tilemap_t.mark_tile_dirty] at ht
  have hd : tm.dirty t = false := by
    simpa [tilemap_t.run, tilemap_t.mark_tile_dirty, hne] using ht
  rw [get_bg_tile_info_congr TILE_FLIPX TILE_FLIPY s s2 t (hv t hne) (hc t hne)]
  exact hinv t hd

/-- Claim C12. Each of `pingpong_videoram_w(offset, data)` and
`pingpong_colorram_w(offset, data)` sets the cell `offset` of its own RAM to
`data`, leaves every other cell of that RAM and the whole of the other RAM
unchanged, and marks tile `offset` dirty; so a tilemap in which every tile not
marked dirty has cached tile info equal to `get_bg_tile_info` of the RAM is
still such a tilemap after either handler; and after the write
`get_bg_tile_info(offset)` has `code & 0xff = data` (video RAM write),
`colour = data & 0x1f` (colour RAM write). -/
theorem write_handlers_mark_dirty (TILE_FLIPX TILE_FLIPY : Nat) (s : pingpong_state)
    (tm : tilemap_t) (offset : Nat) (data : uint8_t)
    (hinv : tilemap_valid TILE_FLIPX TILE_FLIPY s tm) :
    ((pingpong_videoram_w s offset data).1.m_videoram offset = data ∧
      (∀ k : Nat, k ≠ offset →
        (pingpong_videoram_w s offset data).1.m_videoram k = s.m_videoram k) ∧
      (pingpong_videoram_w s offset data).1.m_colorram = s.m_colorram ∧
      (pingpong_videoram_w s offset data).2 = [tilemap_call.mark_tile_dirty offset] ∧
      (tm.run (pingpong_videoram_w s offset data).2).dirty offset = true ∧
      tilemap_valid TILE_FLIPX TILE_FLIPY (pingpong_videoram_w s offset data).1
        (tm.run (pingpong_videoram_w s offset data).2) ∧
      (get_bg_tile_info TILE_FLIPX TILE_FLIPY (pingpong_videoram_w s offset data).1 offset).code
        &&& 0xff = (data : uint8_t).val) ∧
    ((pingpong_colorram_w s offset data).1.m_colorram offset = data ∧
      (∀ k : Nat, k ≠ offset →
        (pingpong_colorram_w s offset data).1.m_colorram k = s.m_colorram k) ∧
      (pingpong_colorram_w s offset data).1.m_videoram = s.m_videoram ∧
      (pingpong_colorram_w s offset data).2 = [tilemap_call.mark_tile_dirty offset] ∧
      (tm.run (pingpong_colorram_w s offset data).2).dirty offset = true ∧
      tilemap_valid TILE_FLIPX TILE_FLIPY (pingpong_colorram_w s offset data).1
        (tm.run (pingpong_colorram_w s offset data).2) ∧
      (get_bg_tile_info TILE_FLIPX TILE_FLIPY (pingpong_colorram_w s offset data).1 offset).color
        = (data : uint8_t).val &&& 0x1f) := by
  have hself : ∀ f : Nat → uint8_t, (fun k => if k = offset then data else f k) offset = data :=
    fun f => if_pos rfl
  have hother : ∀ (f : Nat → uint8_t) (k : Nat), k ≠ offset →
      (fun k => if k = offset then data else f k) k = f k := fun f k hk => if_neg hk
  have hdirty : (tm.run [tilemap_call.mark_tile_dirty offset]).dirty offset = true := by
    simp [tilemap_t.run, tilemap_t.mark_tile_dirty]
  refine ⟨⟨hself _, hother _, rfl, rfl, hdirty, ?_, ?_⟩, ⟨hself _, hother _, rfl, rfl, hdirty, ?_, ?_⟩⟩
  · exact tilemap_valid_mark TILE_FLIPX TILE_FLIPY s _ tm offset hinv (hother _) (fun _ _ => rfl)
  · rw [(get_bg_tile_info_code_split TILE_FLIPX TILE_FLIPY _ offset).1]
    exact congrArg Fin.val (hself s.m_videoram)
  · exact tilemap_valid_mark TILE_FLIPX TILE_FLIPY s _ tm offset hinv (fun _ _ => rfl) (hother _)
  · show ((pingpong_colorram_w s offset data).1.m_colorram offset).val &&& 0x1f = _
    exact congrArg (fun x : uint8_t => x.val &&& 0x1f) (hself s.m_colorram)

/-- Witness for C12: the byte 0x42 written at offset 5 of the sample state,
whose tilemap has no dirty tile and caches the tile info of that state. -/
theorem write_handlers_mark_dirty_witness :
    tilemap_valid 1 2 sample_state sample_tilemap ∧
    ((pingpong_videoram_w sample_state 5 0x42).1.m_videoram 5 = 0x42 ∧
      (∀ k : Nat, k ≠ 5 →
        (pingpong_videoram_w sample_state 5 0x42).1.m_videoram k = sample_state.m_videoram k) ∧
      (pingpong_videoram_w sample_state 5 0x42).1.m_colorram = sample_state.m_colorram ∧
      (pingpong_videoram_w sample_state 5 0x42).2 = [tilemap_call.mark_tile_dirty 5] ∧
      (sample_tilemap.run (pingpong_videoram_w sample_state 5 0x42).2).dirty 5 = true ∧
      tilemap_valid 1 2 (pingpong_videoram_w sample_state 5 0x42).1
        (sample_tilemap.run (pingpong_videoram_w sample_state 5 0x42).2) ∧
      (get_bg_tile_info 1 2 (pingpong_videoram_w sample_state 5 0x42).1 5).code
        &&& 0xff = (0x42 : uint8_t).val) ∧
    ((pingpong_colorram_w sample_state 5 0x42).1.m_colorram 5 = 0x42 ∧
      (∀ k : Nat, k ≠ 5 →
        (pingpong_colorram_w sample_state 5 0x42).1.m_colorram k = sample_state.m_colorram k) ∧
      (pingpong_colorram_w sample_state 5 0x42).1.m_videoram = sample_state.m_videoram ∧
      (pingpong_colorram_w sample_state 5 0x42).2 = [tilemap_call.mark_tile_dirty 5] ∧
      (sample_tilemap.run (pingpong_colorram_w sample_state 5 0x42).2).dirty 5 = true ∧
      tilemap_valid 1 2 (pingpong_colorram_w sample_state 5 0x42).1
        (sample_tilemap.run (pingpong_colorram_w sample_state 5 0x42).2) ∧
      (get_bg_tile_info 1 2 (pingpong_colorram_w sample_state 5 0x42).1 5).color
        = (0x42 : uint8_t).val &&& 0x1f) :=
  ⟨fun _ _ => rfl,
    write_handlers_mark_dirty 1 2 sample_state sample_tilemap 5 0x42 (fun _ _ => rfl)⟩

/-! ## The claim on the losslessness of the tile attributes -/

set_option maxRecDepth 100000 in
theorem attr_byte_rebuild : ∀ a : uint8_t,
    a.val = (a.val &&& 0x1f) ||| (bit_of a.val 5 <<< 5) |||
      (if bit_of a.val 6 = 1 then 0x40 else 0) ||| (if bit_of a.val 7 = 1 then 0x80 else 0) := by
  decide

/-- The flip flags of the reported tile info, read back with the two flag
constants, are bits 6 and 7 of the colour RAM byte. -/
theorem get_bg_tile_info_flips (TILE_FLIPX TILE_FLIPY : Nat) (s : pingpong_state) (t : Nat)
    (hx : TILE_FLIPX ≠ 0) (hy : TILE_FLIPY ≠ 0) (hxy : TILE_FLIPX &&& TILE_FLIPY = 0) :
    ((get_bg_tile_info TILE_FLIPX TILE_FLIPY s t).flags &&& TILE_FLIPX ≠ 0
      ↔ bit_of (s.m_colorram t).val 6 = 1) ∧
    ((get_bg_tile_info TILE_FLIPX TILE_FLIPY s t).flags &&& TILE_FLIPY ≠ 0
      ↔ bit_of (s.m_colorram t).val 7 = 1) := by
  have ha := attr_byte_bits (s.m_colorram t)
  have hyx : TILE_FLIPY &&& TILE_FLIPX = 0 := by rw [Nat.and_comm]; exact hxy
  constructor
  · rw [← ha.2.1]
    exact flags_and_left TILE_FLIPX TILE_FLIPY _ _ hx hxy
  · rw [← ha.2.2.1]
    show ((if (s.m_colorram t).val &&& 0x40 ≠ 0 then TILE_FLIPX else 0) |||
      (if (s.m_colorram t).val &&& 0x80 ≠ 0 then TILE_FLIPY else 0)) &&& TILE_FLIPY ≠ 0 ↔ _
    rw [Nat.or_comm]
    exact flags_and_left TILE_FLIPY TILE_FLIPX _ _ hy hyx

/-- The two RAM bytes of a tile rebuilt from the tile info reported for it. -/
theorem get_bg_tile_info_rebuild (TILE_FLIPX TILE_FLIPY : Nat) (s : pingpong_state) (t : Nat)
    (hx : TILE_FLIPX ≠ 0) (hy : TILE_FLIPY ≠ 0) (hxy : TILE_FLIPX &&& TILE_FLIPY = 0) :
    (s.m_videoram t).val = (get_bg_tile_info TILE_FLIPX TILE_FLIPY s t).code &&& 0xff ∧
    (s.m_colorram t).val
      = (get_bg_tile_info TILE_FLIPX TILE_FLIPY s t).color |||
        (((get_bg_tile_info TILE_FLIPX TILE_FLIPY s t).code >>> 8) <<< 5) |||
        (if (get_bg_tile_info TILE_FLIPX TILE_FLIPY s t).flags &&& TILE_FLIPX ≠ 0
          then 0x40 else 0) |||
        (if (get_bg_tile_info TILE_FLIPX TILE_FLIPY s t).flags &&& TILE_FLIPY ≠ 0
          then 0x80 else 0) := by
  have hsplit := get_bg_tile_info_code_split TILE_FLIPX TILE_FLIPY s t
  have hflip := get_bg_tile_info_flips TILE_FLIPX TILE_FLIPY s t hx hy hxy
  refine ⟨hsplit.1.symm, ?_⟩
  rw [hsplit.2, if_congr hflip.1 rfl rfl, if_congr hflip.2 rfl rfl]
  exact attr_byte_rebuild (s.m_colorram t)

/-- Claim C13. The decoding of `get_bg_tile_info` is lossless: two byte pairs
(video RAM byte, colour RAM byte) whose decoded code, colour, flip-x and flip-y
agree are equal; the video byte is `code & 0xff` and the colour RAM byte is
`colour | ((code >> 8) << 5) | (flipx ? 0x40 : 0) | (flipy ? 0x80 : 0)`.  The
flips are read from the reported flags with the two flag constants of the
framework, assumed non-zero and without a common bit. -/
theorem get_bg_tile_info_lossless (TILE_FLIPX TILE_FLIPY : Nat)
    (hx : TILE_FLIPX ≠ 0) (hy : TILE_FLIPY ≠ 0) (hxy : TILE_FLIPX &&& TILE_FLIPY = 0) :
    (∀ (s s2 : pingpong_state) (t t2 : Nat),
      (get_bg_tile_info TILE_FLIPX TILE_FLIPY s t).code = (get_bg_tile_info TILE_FLIPX TILE_FLIPY s2 t2).code →
      (get_bg_tile_info TILE_FLIPX TILE_FLIPY s t).color = (get_bg_tile_info TILE_FLIPX TILE_FLIPY s2 t2).color →
      ((get_bg_tile_info TILE_FLIPX TILE_FLIPY s t).flags &&& TILE_FLIPX ≠ 0
        ↔ (get_bg_tile_info TILE_FLIPX TILE_FLIPY s2 t2).flags &&& TILE_FLIPX ≠ 0) →
      ((get_bg_tile_info TILE_FLIPX TILE_FLIPY s t).flags &&& TILE_FLIPY ≠ 0
        ↔ (get_bg_tile_info TILE_FLIPX TILE_FLIPY s2 t2).flags &&& TILE_FLIPY ≠ 0) →
      s.m_videoram t = s2.m_videoram t2 ∧ s.m_colorram t = s2.m_colorram t2) ∧
    (∀ (s : pingpong_state) (t : Nat),
      (s.m_videoram t).val = (get_bg_tile_info TILE_FLIPX TILE_FLIPY s t).code &&& 0xff ∧
      (s.m_colorram t).val
        = (get_bg_tile_info TILE_FLIPX TILE_FLIPY s t).color |||
          (((get_bg_tile_info TILE_FLIPX TILE_FLIPY s t).code >>> 8) <<< 5) |||
          (if (get_bg_tile_info TILE_FLIPX TILE_FLIPY s t).flags &&& TILE_FLIPX ≠ 0 then 0x40 else 0) |||
          (if (get_bg_tile_info TILE_FLIPX TILE_FLIPY s t).flags &&& TILE_FLIPY ≠ 0 then 0x80 else 0)) := by
  refine ⟨?_, fun s t => get_bg_tile_info_rebuild TILE_FLIPX TILE_FLIPY s t hx hy hxy⟩
  intro s s2 t t2 hcode hcolor hfx hfy
  have h1 := get_bg_tile_info_rebuild TILE_FLIPX TILE_FLIPY s t hx hy hxy
  have h2 := get_bg_tile_info_rebuild TILE_FLIPX TILE_FLIPY s2 t2 hx hy hxy
  constructor
  · apply Fin.ext
    rw [h1.1, h2.1, hcode]
  · apply Fin.ext
    rw [h1.2, h2.2, hcode, hcolor, if_congr hfx rfl rfl, if_congr hfy rfl rfl]

/-- Witness for C13 with the flag constants 1 and 2. -/
theorem get_bg_tile_info_lossless_witness :
    ((1 : Nat) ≠ 0 ∧ (2 : Nat) ≠ 0 ∧ (1 : Nat) &&& 2 = 0) ∧
    (∀ (s s2 : pingpong_state) (t t2 : Nat),
      (get_bg_tile_info 1 2 s t).code = (get_bg_tile_info 1 2 s2 t2).code →
      (get_bg_tile_info 1 2 s t).color = (get_bg_tile_info 1 2 s2 t2).color →
      ((get_bg_tile_info 1 2 s t).flags &&& 1 ≠ 0
        ↔ (get_bg_tile_info 1 2 s2 t2).flags &&& 1 ≠ 0) →
      ((get_bg_tile_info 1 2 s t).flags &&& 2 ≠ 0
        ↔ (get_bg_tile_info 1 2 s2 t2).flags &&& 2 ≠ 0) →
      s.m_videoram t = s2.m_videoram t2 ∧ s.m_colorram t = s2.m_colorram t2) ∧
    (∀ (s : pingpong_state) (t : Nat),
      (s.m_videoram t).val = (get_bg_tile_info 1 2 s t).code &&& 0xff ∧
      (s.m_colorram t).val
        = (get_bg_tile_info 1 2 s t).color |||
          (((get_bg_tile_info 1 2 s t).code >>> 8) <<< 5) |||
          (if (get_bg_tile_info 1 2 s t).flags &&& 1 ≠ 0 then 0x40 else 0) |||
          (if (get_bg_tile_info 1 2 s t).flags &&& 2 ≠ 0 then 0x80 else 0)) :=
  ⟨by decide, get_bg_tile_info_lossless 1 2 (by decide) (by decide) (by decide)⟩

end Pingpong
